import Mathlib

/-!
Verification development for the Trend repository (`trend.py`).

The embedding models the trend data pipeline of `ProjectTrend`:
the regex-based store parser, the append-only trend store, the weekly
projection loop of `generate_estimated_trend`, the status derivation of
`generate_trend`, the exclusion rule `_calculate_exclude`, and the
remaining-time aggregation of `add_datapoint` / `_get_card_remaining_time`.

Text is modelled as `List Char` (named `Str` below).  Python file contents
are strings; iterating a file line by line and matching each line with
`re.match(pattern, line)` where the pattern ends in `\s*$` is equivalent to
splitting the content on the newline character and matching the stripped
lines, because the only difference — the retained trailing `'\n'` and the
final empty piece produced by splitting — is absorbed by `\s*$` and by the
fact that the empty line never matches.  The ASCII fragments of `\d` and
`\s` are modelled; the stores only ever contain ASCII.
-/

/-- Text is modelled as a list of characters. -/
abbrev Str := List Char

/-- The ASCII whitespace characters matched by Python's regex `\s`. -/
def isPySpace (c : Char) : Bool :=
  c = ' ' || c = '\t' || c = '\n' || c = '\r' || c = '\x0b' || c = '\x0c'

/-- The decimal digit character for a value below ten, as produced by
Python's `str` on integers. -/
def decDigit (n : Nat) : Char :=
  if n = 0 then '0' else if n = 1 then '1' else if n = 2 then '2'
  else if n = 3 then '3' else if n = 4 then '4' else if n = 5 then '5'
  else if n = 6 then '6' else if n = 7 then '7' else if n = 8 then '8'
  else '9'

/-- Worker for decimal printing, structurally recursive on a fuel bound so
that concrete values reduce inside the kernel; `natDigits` always supplies
enough fuel, as `digitsLoop_eq_spec` below proves. -/
def digitsLoop : Nat → Nat → Str → Str
  | 0, _, acc => acc
  | f + 1, n, acc =>
    if n < 10 then decDigit n :: acc
    else digitsLoop f (n / 10) (decDigit (n % 10) :: acc)

/-- Decimal digit string of a natural number: the embedding of Python's
`str` on a non-negative `int` (and of `'{0}'.format(n)`). -/
def natDigits (n : Nat) : Str :=
  digitsLoop (n + 1) n []

/-- Reference recursion for decimal printing, used only in proofs. -/
def natDigitsSpec (n : Nat) : Str :=
  if _h : n < 10 then [decDigit n]
  else natDigitsSpec (n / 10) ++ [decDigit (n % 10)]
termination_by n
decreasing_by exact Nat.div_lt_self (by omega) (by omega)

/-- Embedding of Python's `str` on an `int` of either sign, as used by
`'{total}'.format` and `'{data}'.format` in `trend.py`. -/
def intRepr (v : Int) : Str :=
  if v < 0 then '-' :: natDigits v.natAbs else natDigits v.toNat

/-- Value of a digit string, as computed by Python's `int()` on a string of
decimal digits (the regex groups only ever hold plain digits). -/
def digitsToNat (cs : Str) : Nat :=
  cs.foldl (fun a c => 10 * a + (c.toNat - 48)) 0

/-- Splitting file content on the newline character.  Together with the
equivalence described in the module docstring this models Python's
line-by-line file iteration in `generate_estimated_trend` and
`generate_trend`. -/
def consHead (c : Char) : List Str → List Str
  | [] => [[c]]
  | l :: ls => (c :: l) :: ls

/-- Split a text into its lines at every `'\n'`, keeping empty pieces. -/
def splitLines : Str → List Str
  | [] => [[]]
  | c :: cs => if c = '\n' then [] :: splitLines cs else consHead c (splitLines cs)

/-- A successful match of the store line pattern
`^(?P<date>\d+-\d+-\d+)\s*=\s*(?P<remaining>\d+)\s*$` (equivalently of
`^(?P<year>\d+)-(?P<month>\d+)-(?P<day>\d+)\s*=\s*(?P<remaining>\d+)\s*$`,
the variant used by `generate_trend`): the four digit groups. -/
structure ParsedLine where
  yearDigits : Str
  monthDigits : Str
  dayDigits : Str
  remDigits : Str
deriving DecidableEq, Repr

/-- The `date` group of the first pattern: the three digit groups joined by
dashes, exactly the text `match.groupdict()['date']` captures. -/
def ParsedLine.dateStr (p : ParsedLine) : Str :=
  p.yearDigits ++ '-' :: p.monthDigits ++ '-' :: p.dayDigits

/-- The remaining value `int(match.groupdict()['remaining'])`. -/
def ParsedLine.remaining (p : ParsedLine) : Nat :=
  digitsToNat p.remDigits

/-- The year component `int(year)` obtained from splitting the date on
dashes. -/
def ParsedLine.year (p : ParsedLine) : Nat := digitsToNat p.yearDigits

/-- The month component `int(month)`. -/
def ParsedLine.month (p : ParsedLine) : Nat := digitsToNat p.monthDigits

/-- The day component `int(day)`. -/
def ParsedLine.day (p : ParsedLine) : Nat := digitsToNat p.dayDigits

/-- Embedding of `re.match(data_pattern, line)` for the store line
patterns of `trend.py`.  Each `\d+` is matched by a maximal run of digits
and each `\s*` by a maximal run of whitespace; for these patterns greedy
matching is equivalent to full regex matching because every required
character after a `\d+` (a dash, whitespace, `=`, or the end of the line)
is not a digit, and every required character after a `\s*` (`=` or a
digit or the end) is not whitespace, so no backtracking can succeed where
the greedy match fails. -/
def matchLineChars (cs : Str) : Option ParsedLine :=
  let d1 := cs.takeWhile Char.isDigit
  let r1 := cs.dropWhile Char.isDigit
  if d1.isEmpty then none else
  match r1 with
  | '-' :: r2 =>
    let d2 := r2.takeWhile Char.isDigit
    let r3 := r2.dropWhile Char.isDigit
    if d2.isEmpty then none else
    match r3 with
    | '-' :: r4 =>
      let d3 := r4.takeWhile Char.isDigit
      let r5 := r4.dropWhile Char.isDigit
      if d3.isEmpty then none else
      match r5.dropWhile isPySpace with
      | '=' :: r6 =>
        let r7 := r6.dropWhile isPySpace
        let d4 := r7.takeWhile Char.isDigit
        let r8 := r7.dropWhile Char.isDigit
        if d4.isEmpty then none
        else if (r8.dropWhile isPySpace).isEmpty then some ⟨d1, d2, d3, d4⟩
        else none
      | _ => none
    | _ => none
  | _ => none

/-- The reading loop of `generate_estimated_trend` and `generate_trend`:
walk the lines in file order, keep each line that matches the pattern,
silently skip each line that does not.  (In the source the matching lines'
groups are appended to parallel lists `current_dates` / `current_data`
resp. `x_axis` / `y_axis`; here the groups of one line stay in one
`ParsedLine`.)  The function is total: no input raises an error. -/
def parseLinesList : List Str → List ParsedLine
  | [] => []
  | l :: ls =>
    match matchLineChars l with
    | some pl => pl :: parseLinesList ls
    | none => parseLinesList ls

/-- Read a whole store: split into lines, keep the matching ones. -/
def parseContent (content : Str) : List ParsedLine :=
  parseLinesList (splitLines content)

example : matchLineChars "2024-02-01 = 9".data =
    some ⟨"2024".data, "02".data, "01".data, "9".data⟩ := by decide

example : (matchLineChars "# comment".data) = none := by decide

example : parseContent "2024-01-01 = 10\n\nbad line\n2024-01-08 = 6".data =
    [⟨"2024".data, "01".data, "01".data, "10".data⟩,
     ⟨"2024".data, "01".data, "08".data, "6".data⟩] := by decide

/-- A calendar date, modelling Python's naive `datetime` restricted to its
date components (`trend.py` only ever uses whole days). -/
structure Date where
  year : Nat
  month : Nat
  day : Nat
deriving DecidableEq, Repr

/-- Gregorian leap-year rule, as implemented by Python's `datetime`. -/
def isLeapYear (y : Nat) : Bool :=
  y % 4 = 0 && (y % 100 != 0 || y % 400 = 0)

/-- Number of days in a month of the proleptic Gregorian calendar. -/
def daysInMonth (y m : Nat) : Nat :=
  if m = 2 then (if isLeapYear y then 29 else 28)
  else if m = 4 || m = 6 || m = 9 || m = 11 then 30
  else 31

/-- The successor day in the Gregorian calendar. -/
def nextDay (d : Date) : Date :=
  if d.day < daysInMonth d.year d.month then ⟨d.year, d.month, d.day + 1⟩
  else if d.month < 12 then ⟨d.year, d.month + 1, 1⟩
  else ⟨d.year + 1, 1, 1⟩

/-- Adding `n` calendar days to a date: the embedding of
`date + timedelta(days=n)` on a naive `datetime`. -/
def addDays (n : Nat) (d : Date) : Date :=
  nextDay^[n] d

/-- Embedding of `datetime(year=..., month=..., day=...)`: the constructor
validates its components (`MINYEAR = 1`, `MAXYEAR = 9999`) and raises
`ValueError` on an out-of-range component, modelled by `none`. -/
def mkDate (y m d : Nat) : Option Date :=
  if 1 ≤ y && y ≤ 9999 && 1 ≤ m && m ≤ 12 && 1 ≤ d && d ≤ daysInMonth y m
  then some ⟨y, m, d⟩ else none

/-- Date text written for a projected point:
`'{0}-{1}-{2}'.format(last_date.year, last_date.month, last_date.day)`.
Note the components are not zero-padded. -/
def fmtProjectedDate (d : Date) : Str :=
  natDigits d.year ++ '-' :: natDigits d.month ++ '-' :: natDigits d.day

/-- The projection loop of `generate_estimated_trend` (lines 185–191):

```
while last_remaining > 0:
    last_date += timedelta(days=7)
    last_remaining -= worked_days_per_week
    if last_remaining < 0:
        last_remaining = 0
    current_dates.append(...)
    current_data.append(int(last_remaining))
```

The source loop has no fuel; `fuel` only bounds how many iterations the
embedding unfolds, and `none` means the loop was still running after
`fuel` iterations.  `some pts` is the list of appended
(date, remaining) pairs. -/
def projectLoop (k : Int) : Nat → Date → Int → Option (List (Date × Int))
  | 0, _, lastRemaining => if 0 < lastRemaining then none else some []
  | f + 1, lastDate, lastRemaining =>
    if 0 < lastRemaining then
      let d := addDays 7 lastDate
      let dec := lastRemaining - k
      let r := if dec < 0 then 0 else dec
      match projectLoop k f d r with
      | none => none
      | some rest => some ((d, r) :: rest)
    else some []

example : projectLoop 4 10 ⟨2024, 2, 1⟩ 9 =
    some [(⟨2024, 2, 8⟩, 5), (⟨2024, 2, 15⟩, 1), (⟨2024, 2, 22⟩, 0)] := by decide

/-- One output line of the estimate store writer:
`file.write('{date} = {data}\n'.format(date=..., data=...))`, without the
trailing newline (the writer adds it, see `writeLines`). -/
def recordLine (date : Str) (value : Int) : Str :=
  date ++ ' ' :: '=' :: ' ' :: intRepr value

/-- The estimate store writer: one `'...\n'` write per record. -/
def writeLines (rs : List Str) : Str :=
  (rs.map (fun r => r ++ ['\n'])).flatten

/-- Result of running `generate_estimated_trend` on a trend store content:
either the content written to `estimate.dat`, or the Python exception the
run dies with (`indexError` for `current_dates[-1]` on an empty parse,
`valueError` for `datetime(...)` on out-of-range components), or
`stillLooping` when the projection loop had not finished within the
embedding's `fuel` bound. -/
inductive EstResult where
  | ok (estimate : Str)
  | indexError
  | valueError
  | stillLooping
deriving DecidableEq, Repr

/-- Embedding of `ProjectTrend.generate_estimated_trend` (lines 166–196,
up to and including the write of `estimate.dat`): read and parse the trend
store, take the last parsed point, build the last date from its
dash-separated components, run the projection loop, then write the
original date texts and values followed by the projected ones. -/
def generateEstimatedTrendFile (content : Str) (k : Int) (fuel : Nat) : EstResult :=
  let pts := parseContent content
  match pts.getLast? with
  | none => .indexError
  | some lastPl =>
    match mkDate lastPl.year lastPl.month lastPl.day with
    | none => .valueError
    | some lastDate =>
      match projectLoop k fuel lastDate (lastPl.remaining : Int) with
      | none => .stillLooping
      | some proj =>
        let dates := pts.map ParsedLine.dateStr ++ proj.map (fun p => fmtProjectedDate p.1)
        let data := pts.map (fun p => (p.remaining : Int)) ++ proj.map Prod.snd
        .ok (writeLines ((dates.zip data).map (fun p => recordLine p.1 p.2)))

example : generateEstimatedTrendFile "2024-02-01 = 9".data 4 10 =
    .ok "2024-02-01 = 9\n2024-2-8 = 5\n2024-2-15 = 1\n2024-2-22 = 0\n".data := by decide

/-- Status derivation of `generate_trend` (lines 254–261): the first
parsed point gets `'start'`; each later point is compared with the point
just before it (`y_axis[-1]` against `y_axis[-2]` immediately after the
append). -/
def pairStatuses (prev : Nat) : List Nat → List String
  | [] => []
  | v :: vs =>
    (if v < prev then "better" else if prev < v then "worse" else "same")
      :: pairStatuses v vs

/-- Statuses of a whole value sequence, in file order. -/
def genStatuses : List Nat → List String
  | [] => []
  | v :: vs => "start" :: pairStatuses v vs

example : genStatuses [10, 6, 6] = ["start", "better", "same"] := by decide

/-- One label reference carried by a raw Trello card; only the `id` field
is read by `_calculate_exclude`. -/
structure CardLabel where
  id : String
deriving DecidableEq, Repr

/-- The fields of a raw Trello card read by `_calculate_exclude`. -/
structure TrelloCard where
  idList : String
  labels : List CardLabel
deriving DecidableEq, Repr

/-- The lookup loops of `_calculate_exclude`: walk the board's id → name
mapping in insertion order and return the first id whose name lowercases
to the target, or `None` when there is none.  (The source reads the
mapping off the module-global `trend`, which at run time is the same
`ProjectTrend` object the board snapshot was built on.) -/
def resolveIdByName : List (String × String) → String → Option String
  | [], _ => none
  | (i, nm) :: rest, target =>
    if nm.toLower = target then some i else resolveIdByName rest target

/-- Embedding of `ProjectTrend._calculate_exclude` (lines 143–163). -/
def calculateExclude (labels lists : List (String × String)) (card : TrelloCard) : Bool :=
  let excludeLabel := resolveIdByName labels "exclude"
  if card.labels.any (fun l => some l.id = excludeLabel) then true
  else
    let completeList := resolveIdByName lists "complete"
    if some card.idList = completeList then true else false

/-- A normalized card record as far as `_get_card_remaining_time` reads
it: the `exclude` flag and the optional `remaining` custom field, whose
`['number']` entry is the numeric value `float(...)` parses; the parsed
number is modelled as an exact rational. -/
structure NCard where
  exclude : Bool
  remaining : Option Rat
deriving DecidableEq, Repr

/-- Embedding of `ProjectTrend._get_card_remaining_time` (lines 348–357). -/
def getCardRemainingTime (card : NCard) : Rat :=
  if !card.exclude then
    match card.remaining with
    | some v => v
    | none => 1
  else 0

/-- The accumulation loop of `add_datapoint` (lines 120–122). -/
def totalRemaining (cards : List NCard) : Rat :=
  cards.foldl (fun acc c => acc + getCardRemainingTime c) 0

/-- Python `int()` on a float/rational: truncation toward zero, as applied
to `total_remaining` before writing. -/
def pyTrunc (q : Rat) : Int :=
  Int.tdiv q.num (q.den : Int)

/-- The line text appended by `add_datapoint` after the leading newline:
`'{now} = {total}'.format(now=now, total=int(total_remaining))`, with
`now` a `%Y-%m-%d`-formatted date supplied by the clock. -/
def addDatapointLine (today : Str) (total : Int) : Str :=
  today ++ ' ' :: '=' :: ' ' :: intRepr total

/-- Embedding of `ProjectTrend.add_datapoint` on the trend store content
(lines 124–126): open for append and write `'\n' + line`. -/
def addDatapointFile (content : Str) (today : Str) (totalRem : Rat) : Str :=
  content ++ '\n' :: addDatapointLine today (pyTrunc totalRem)

/-- A sequence of `add_datapoint` runs with given dates and already
truncated integer totals. -/
def appendAll (content : Str) (pts : List (Str × Int)) : Str :=
  pts.foldl (fun c p => c ++ '\n' :: addDatapointLine p.1 p.2) content

/-- The two durable files of the pipeline. -/
structure Stores where
  trendData : Str
  estimateData : Str
deriving DecidableEq, Repr

/-- `add_datapoint` as a transition on the stores. -/
def addDatapointRun (s : Stores) (today : Str) (totalRem : Rat) : Stores :=
  { s with trendData := addDatapointFile s.trendData today totalRem }

/-- `generate_trend` as a transition on the stores: it opens the trend
store for reading only, derives the render input (values and statuses) and
writes image artifacts outside the stores, so the stores are returned
unchanged next to the derived statuses. -/
def generateTrendRun (s : Stores) : Stores × List String :=
  (s, genStatuses ((parseContent s.trendData).map ParsedLine.remaining))

/-- `generate_estimated_trend` as a transition on the stores: only the
estimate store is (re)written, from the trend store's content. -/
def generateEstimatedTrendRun (s : Stores) (k : Int) (fuel : Nat) : Option Stores :=
  match generateEstimatedTrendFile s.trendData k fuel with
  | .ok est => some { s with estimateData := est }
  | _ => none

/-- The digit-group decomposition of a well-formed `%Y-%m-%d` date text:
three maximal nonempty digit runs joined by dashes and nothing else. -/
def dateGroups (cs : Str) : Option (Str × Str × Str) :=
  let g1 := cs.takeWhile Char.isDigit
  let r1 := cs.dropWhile Char.isDigit
  if g1.isEmpty then none else
  match r1 with
  | '-' :: r2 =>
    let g2 := r2.takeWhile Char.isDigit
    let r3 := r2.dropWhile Char.isDigit
    if g2.isEmpty then none else
    match r3 with
    | '-' :: r4 =>
      let g3 := r4.takeWhile Char.isDigit
      let r5 := r4.dropWhile Char.isDigit
      if g3.isEmpty then none else if r5.isEmpty then some (g1, g2, g3) else none
    | _ => none
  | _ => none

/-- A date text is well shaped when it decomposes into digit groups. -/
def dateShaped (cs : Str) : Bool :=
  (dateGroups cs).isSome

example : dateShaped "2024-01-01".data = true := by decide
example : dateShaped "2024-01-".data = false := by decide

/-! ### Lemmas about decimal printing -/

theorem decDigit_isDigit (n : Nat) : (decDigit n).isDigit = true := by
  unfold decDigit
  repeat' split
  all_goals decide

theorem decDigit_val {n : Nat} (h : n < 10) : (decDigit n).toNat - 48 = n := by
  interval_cases n <;> decide

theorem digitsLoop_eq_spec :
    ∀ (f n : Nat) (acc : Str), n < f → digitsLoop f n acc = natDigitsSpec n ++ acc := by
  intro f
  induction f with
  | zero => intro n acc h; omega
  | succ f ih =>
    intro n acc h
    rw [digitsLoop, natDigitsSpec]
    by_cases h10 : n < 10
    · simp [h10]
    · have hdiv : n / 10 < n := Nat.div_lt_self (by omega) (by omega)
      simp only [if_neg h10, dif_neg h10]
      rw [ih (n / 10) _ (by omega), List.append_assoc]
      rfl

theorem natDigits_eq_spec (n : Nat) : natDigits n = natDigitsSpec n := by
  rw [natDigits, digitsLoop_eq_spec (n + 1) n [] (Nat.lt_succ_self n), List.append_nil]

theorem natDigits_ne_nil (n : Nat) : natDigits n ≠ [] := by
  rw [natDigits_eq_spec, natDigitsSpec]
  by_cases h10 : n < 10 <;> simp [h10]

theorem natDigits_all_digit {n : Nat} : ∀ c ∈ natDigits n, c.isDigit = true := by
  rw [natDigits_eq_spec]
  induction n using Nat.strong_induction_on with
  | _ n ih =>
    rw [natDigitsSpec]
    by_cases h10 : n < 10
    · simp only [dif_pos h10, List.mem_singleton]
      rintro c rfl
      exact decDigit_isDigit n
    · have hdiv : n / 10 < n := Nat.div_lt_self (by omega) (by omega)
      simp only [dif_neg h10, List.mem_append, List.mem_singleton]
      rintro c (hc | rfl)
      · exact ih (n / 10) hdiv c hc
      · exact decDigit_isDigit (n % 10)

theorem digitsToNat_append_digit (xs : Str) (c : Char) :
    digitsToNat (xs ++ [c]) = 10 * digitsToNat xs + (c.toNat - 48) := by
  unfold digitsToNat
  rw [List.foldl_append]
  rfl

theorem digitsToNat_natDigits (n : Nat) : digitsToNat (natDigits n) = n := by
  rw [natDigits_eq_spec]
  induction n using Nat.strong_induction_on with
  | _ n ih =>
    rw [natDigitsSpec]
    by_cases h10 : n < 10
    · simp only [dif_pos h10]
      show 10 * 0 + ((decDigit n).toNat - 48) = n
      rw [decDigit_val h10]
      omega
    · have hdiv : n / 10 < n := Nat.div_lt_self (by omega) (by omega)
      simp only [dif_neg h10]
      rw [digitsToNat_append_digit, ih (n / 10) hdiv, decDigit_val (Nat.mod_lt n (by omega))]
      omega

theorem intRepr_of_nonneg {v : Int} (h : 0 ≤ v) : intRepr v = natDigits v.toNat := by
  unfold intRepr
  rw [if_neg (by omega)]

theorem isDigit_not_pySpace {c : Char} (h : c.isDigit = true) : isPySpace c = false := by
  cases hc : isPySpace c
  · rfl
  · exfalso
    unfold isPySpace at hc
    simp only [Bool.or_eq_true, decide_eq_true_eq] at hc
    rcases hc with ((((rfl | rfl) | rfl) | rfl) | rfl) | rfl <;> exact absurd h (by decide)

theorem isDigit_ne_newline {c : Char} (h : c.isDigit = true) : c ≠ '\n' := by
  rintro rfl
  exact absurd h (by decide)

/-! ### Lemmas about `takeWhile` and `dropWhile` -/

theorem takeWhile_digit_block {p : Char → Bool} :
    ∀ {g : Str}, (∀ c ∈ g, p c = true) → ∀ {y : Char}, p y = false → ∀ (ys : Str),
      (g ++ y :: ys).takeWhile p = g ∧ (g ++ y :: ys).dropWhile p = y :: ys := by
  intro g
  induction g with
  | nil =>
    intro _ y hy ys
    simp [List.takeWhile_cons, List.dropWhile_cons, hy]
  | cons a g ih =>
    intro hg y hy ys
    have ha : p a = true := hg a (List.mem_cons_self a _)
    obtain ⟨h1, h2⟩ := ih (fun c hc => hg c (List.mem_cons_of_mem a hc)) hy ys
    constructor
    · simp only [List.cons_append, List.takeWhile_cons, ha, if_pos]
      rw [h1]
    · simp only [List.cons_append, List.dropWhile_cons, ha, if_pos]
      rw [h2]

theorem takeWhile_all_block {p : Char → Bool} :
    ∀ {g : Str}, (∀ c ∈ g, p c = true) →
      g.takeWhile p = g ∧ g.dropWhile p = [] := by
  intro g
  induction g with
  | nil => intro _; exact ⟨rfl, rfl⟩
  | cons a g ih =>
    intro hg
    have ha : p a = true := hg a (List.mem_cons_self a _)
    obtain ⟨h1, h2⟩ := ih (fun c hc => hg c (List.mem_cons_of_mem a hc))
    constructor
    · simp only [List.takeWhile_cons, ha, if_pos]
      rw [h1]
    · simp only [List.dropWhile_cons, ha, if_pos]
      rw [h2]

theorem dropWhile_cons_of_neg {p : Char → Bool} {y : Char} (h : p y = false) (ys : Str) :
    (y :: ys).dropWhile p = y :: ys := by
  simp [List.dropWhile_cons, h]

theorem dropWhile_cons_of_pos {p : Char → Bool} {y : Char} (h : p y = true) (ys : Str) :
    (y :: ys).dropWhile p = ys.dropWhile p := by
  simp [List.dropWhile_cons, h]

/-! ### Lemmas about `splitLines` -/

theorem splitLines_ne_nil : ∀ cs : Str, splitLines cs ≠ [] := by
  intro cs
  induction cs with
  | nil => simp [splitLines]
  | cons c cs ih =>
    rw [splitLines]
    split
    · simp
    · cases h : splitLines cs with
      | nil => exact absurd h ih
      | cons l ls => simp [consHead]

theorem consHead_append (c : Char) (ls₁ ls₂ : List Str) (h : ls₁ ≠ []) :
    consHead c (ls₁ ++ ls₂) = consHead c ls₁ ++ ls₂ := by
  cases ls₁ with
  | nil => exact absurd rfl h
  | cons l ls => rfl

theorem splitLines_append_newline (a b : Str) :
    splitLines (a ++ '\n' :: b) = splitLines a ++ splitLines b := by
  induction a with
  | nil => simp [splitLines]
  | cons c cs ih =>
    by_cases hc : c = '\n'
    · subst hc
      show splitLines ('\n' :: (cs ++ '\n' :: b)) = splitLines ('\n' :: cs) ++ splitLines b
      rw [splitLines, if_pos rfl, splitLines, if_pos rfl, ih]
      rfl
    · show splitLines (c :: (cs ++ '\n' :: b)) = splitLines (c :: cs) ++ splitLines b
      rw [splitLines, if_neg hc, splitLines, if_neg hc, ih]
      exact consHead_append c _ _ (splitLines_ne_nil cs)

theorem splitLines_no_newline : ∀ l : Str, '\n' ∉ l → splitLines l = [l] := by
  intro l
  induction l with
  | nil => intro _; rfl
  | cons c cs ih =>
    intro h
    have hc : c ≠ '\n' := fun hcc => h (hcc ▸ List.mem_cons_self c cs)
    have hcs : '\n' ∉ cs := fun hm => h (List.mem_cons_of_mem c hm)
    rw [splitLines, if_neg hc, ih hcs]
    rfl

theorem splitLines_writeLines :
    ∀ rs : List Str, (∀ r ∈ rs, '\n' ∉ r) → splitLines (writeLines rs) = rs ++ [[]] := by
  intro rs
  induction rs with
  | nil => intro _; rfl
  | cons r rs ih =>
    intro h
    have hr : '\n' ∉ r := h r (List.mem_cons_self r rs)
    have hrs : ∀ x ∈ rs, '\n' ∉ x := fun x hx => h x (List.mem_cons_of_mem r hx)
    show splitLines ((r ++ ['\n']) ++ writeLines rs) = (r :: rs) ++ [[]]
    rw [List.append_assoc, List.singleton_append, splitLines_append_newline,
      splitLines_no_newline r hr, ih hrs]
    rfl

/-! ### Lemmas about the line matcher -/

theorem matchLineChars_record {g1 g2 g3 g4 : Str}
    (hd1 : ∀ c ∈ g1, Char.isDigit c = true) (hn1 : g1 ≠ [])
    (hd2 : ∀ c ∈ g2, Char.isDigit c = true) (hn2 : g2 ≠ [])
    (hd3 : ∀ c ∈ g3, Char.isDigit c = true) (hn3 : g3 ≠ [])
    (hd4 : ∀ c ∈ g4, Char.isDigit c = true) (hn4 : g4 ≠ []) :
    matchLineChars (g1 ++ '-' :: (g2 ++ '-' :: (g3 ++ ' ' :: '=' :: ' ' :: g4)))
      = some ⟨g1, g2, g3, g4⟩ := by
  obtain ⟨t1, e1⟩ := takeWhile_digit_block hd1 (show Char.isDigit '-' = false by decide)
    (g2 ++ '-' :: (g3 ++ ' ' :: '=' :: ' ' :: g4))
  obtain ⟨t2, e2⟩ := takeWhile_digit_block hd2 (show Char.isDigit '-' = false by decide)
    (g3 ++ ' ' :: '=' :: ' ' :: g4)
  obtain ⟨t3, e3⟩ := takeWhile_digit_block hd3 (show Char.isDigit ' ' = false by decide)
    ('=' :: ' ' :: g4)
  obtain ⟨t4, e4⟩ := takeWhile_all_block hd4
  obtain ⟨c4, t4g, rfl⟩ : ∃ c t, g4 = c :: t := by
    cases g4 with
    | nil => exact absurd rfl hn4
    | cons c t => exact ⟨c, t, rfl⟩
  have s3 : isPySpace c4 = false := isDigit_not_pySpace (hd4 c4 (List.mem_cons_self c4 t4g))
  simp only [matchLineChars, t1, e1, t2, e2, t3, e3, t4, e4,
    List.isEmpty_eq_false.mpr hn1, List.isEmpty_eq_false.mpr hn2,
    List.isEmpty_eq_false.mpr hn3,
    dropWhile_cons_of_pos (show isPySpace ' ' = true by decide),
    dropWhile_cons_of_neg (show isPySpace '=' = false by decide),
    dropWhile_cons_of_neg s3,
    List.dropWhile_nil, List.isEmpty_nil, List.isEmpty_cons,
    Bool.false_eq_true, if_false, if_true, ite_true, ite_false]

theorem matchLineChars_groups {cs : Str} {pl : ParsedLine} (h : matchLineChars cs = some pl) :
    (pl.yearDigits ≠ [] ∧ ∀ c ∈ pl.yearDigits, Char.isDigit c = true)
    ∧ (pl.monthDigits ≠ [] ∧ ∀ c ∈ pl.monthDigits, Char.isDigit c = true)
    ∧ (pl.dayDigits ≠ [] ∧ ∀ c ∈ pl.dayDigits, Char.isDigit c = true)
    ∧ (pl.remDigits ≠ [] ∧ ∀ c ∈ pl.remDigits, Char.isDigit c = true) := by
  simp only [matchLineChars] at h
  repeat' split at h
  any_goals exact Option.noConfusion h
  rename_i h1 u1 r2 heq1 h2 u2 r4 heq2 h3 u3 r6 heq3 h4 h5
  obtain rfl := Option.some.inj h
  refine ⟨⟨?_, ?_⟩, ⟨?_, ?_⟩, ⟨?_, ?_⟩, ⟨?_, ?_⟩⟩
  · show List.takeWhile Char.isDigit cs ≠ []
    intro hx; exact h1 (by rw [hx]; rfl)
  · exact fun c hc => List.mem_takeWhile_imp hc
  · show List.takeWhile Char.isDigit r2 ≠ []
    intro hx; exact h2 (by rw [hx]; rfl)
  · exact fun c hc => List.mem_takeWhile_imp hc
  · show List.takeWhile Char.isDigit r4 ≠ []
    intro hx; exact h3 (by rw [hx]; rfl)
  · exact fun c hc => List.mem_takeWhile_imp hc
  · show List.takeWhile Char.isDigit (List.dropWhile isPySpace r6) ≠ []
    intro hx; exact h4 (by rw [hx]; rfl)
  · exact fun c hc => List.mem_takeWhile_imp hc

theorem dateGroups_spec {cs a b c : Str} (h : dateGroups cs = some (a, b, c)) :
    cs = a ++ '-' :: (b ++ '-' :: c)
    ∧ (a ≠ [] ∧ ∀ x ∈ a, Char.isDigit x = true)
    ∧ (b ≠ [] ∧ ∀ x ∈ b, Char.isDigit x = true)
    ∧ (c ≠ [] ∧ ∀ x ∈ c, Char.isDigit x = true) := by
  simp only [dateGroups] at h
  repeat' split at h
  any_goals exact Option.noConfusion h
  rename_i h1 u1 r2 heq1 h2 u2 r4 heq2 h3 h4
  have h0 := Option.some.inj h
  rw [Prod.mk.injEq, Prod.mk.injEq] at h0
  obtain ⟨rfl, rfl, rfl⟩ := h0
  have e4 : List.dropWhile Char.isDigit r4 = [] := by
    cases hd : List.dropWhile Char.isDigit r4 with
    | nil => rfl
    | cons x xs => rw [hd] at h4; exact absurd h4 (by simp)
  have e1 := List.takeWhile_append_dropWhile (p := Char.isDigit) (l := cs)
  have e2 := List.takeWhile_append_dropWhile (p := Char.isDigit) (l := r2)
  have e3 := List.takeWhile_append_dropWhile (p := Char.isDigit) (l := r4)
  rw [heq1] at e1
  rw [heq2] at e2
  rw [e4, List.append_nil] at e3
  refine ⟨?_, ⟨?_, ?_⟩, ⟨?_, ?_⟩, ⟨?_, ?_⟩⟩
  · rw [e3, e2, e1]
  · show List.takeWhile Char.isDigit cs ≠ []
    intro hx; exact h1 (by rw [hx]; rfl)
  · exact fun x hx => List.mem_takeWhile_imp hx
  · show List.takeWhile Char.isDigit r2 ≠ []
    intro hx; exact h2 (by rw [hx]; rfl)
  · exact fun x hx => List.mem_takeWhile_imp hx
  · show List.takeWhile Char.isDigit r4 ≠ []
    intro hx; exact h3 (by rw [hx]; rfl)
  · exact fun x hx => List.mem_takeWhile_imp hx

/-! ### Lemmas about reading stores -/

theorem parseLinesList_append (xs ys : List Str) :
    parseLinesList (xs ++ ys) = parseLinesList xs ++ parseLinesList ys := by
  induction xs with
  | nil => rfl
  | cons l ls ih =>
    show parseLinesList (l :: (ls ++ ys)) = parseLinesList (l :: ls) ++ parseLinesList ys
    rw [parseLinesList, parseLinesList]
    cases matchLineChars l with
    | none => exact ih
    | some pl => rw [ih]; rfl

theorem parseLinesList_eq_filterMap (ls : List Str) :
    parseLinesList ls = ls.filterMap matchLineChars := by
  induction ls with
  | nil => rfl
  | cons l ls ih =>
    rw [parseLinesList, List.filterMap_cons]
    cases matchLineChars l with
    | none => exact ih
    | some pl => rw [ih]

theorem parseLinesList_filter_matching (ls : List Str) :
    parseLinesList (ls.filter (fun l => (matchLineChars l).isSome)) = parseLinesList ls := by
  induction ls with
  | nil => rfl
  | cons l ls ih =>
    rw [List.filter_cons]
    cases hm : matchLineChars l with
    | none =>
      rw [if_neg (by simp [hm]), parseLinesList, hm]
      exact ih
    | some pl =>
      rw [if_pos (by simp [hm]), parseLinesList, hm, parseLinesList, hm, ih]

theorem parseContent_append_line (content line : Str) (h : '\n' ∉ line) :
    parseContent (content ++ '\n' :: line) = parseContent content ++ parseLinesList [line] := by
  unfold parseContent
  rw [splitLines_append_newline, parseLinesList_append, splitLines_no_newline line h]

theorem intRepr_chars {v : Int} : ∀ x ∈ intRepr v, x = '-' ∨ x.isDigit = true := by
  unfold intRepr
  split
  · intro x hx
    rcases List.mem_cons.mp hx with rfl | hx
    · exact Or.inl rfl
    · exact Or.inr (natDigits_all_digit x hx)
  · intro x hx
    exact Or.inr (natDigits_all_digit x hx)

theorem newline_not_mem_record {d : Str} (hd : ∀ x ∈ d, x = '-' ∨ x.isDigit = true) (v : Int) :
    '\n' ∉ d ++ ' ' :: '=' :: ' ' :: intRepr v := by
  intro hmem
  rcases List.mem_append.mp hmem with hm | hm
  · rcases hd _ hm with h | h
    · exact absurd h (by decide)
    · exact absurd h (by decide)
  · rcases List.mem_cons.mp hm with h | hm
    · exact absurd h (by decide)
    rcases List.mem_cons.mp hm with h | hm
    · exact absurd h (by decide)
    rcases List.mem_cons.mp hm with h | hm
    · exact absurd h (by decide)
    rcases intRepr_chars _ hm with h | h
    · exact absurd h (by decide)
    · exact absurd h (by decide)

theorem dateShaped_chars {d : Str} (hd : dateShaped d = true) :
    ∀ x ∈ d, x = '-' ∨ x.isDigit = true := by
  unfold dateShaped at hd
  obtain ⟨⟨a, b, c⟩, hg⟩ := Option.isSome_iff_exists.mp hd
  obtain ⟨hcs, ⟨_, da⟩, ⟨_, db⟩, ⟨_, dc⟩⟩ := dateGroups_spec hg
  subst hcs
  intro x hx
  rcases List.mem_append.mp hx with hm | hm
  · exact Or.inr (da x hm)
  rcases List.mem_cons.mp hm with h | hm
  · exact Or.inl h
  rcases List.mem_append.mp hm with hm | hm
  · exact Or.inr (db x hm)
  rcases List.mem_cons.mp hm with h | hm
  · exact Or.inl h
  · exact Or.inr (dc x hm)

theorem matchLineChars_datapoint {d : Str} (hd : dateShaped d = true) {v : Int} (hv : 0 ≤ v) :
    ∃ pl, matchLineChars (d ++ ' ' :: '=' :: ' ' :: intRepr v) = some pl
      ∧ pl.dateStr = d ∧ pl.remaining = v.toNat := by
  unfold dateShaped at hd
  obtain ⟨⟨a, b, c⟩, hg⟩ := Option.isSome_iff_exists.mp hd
  obtain ⟨hcs, ⟨na, da⟩, ⟨nb, db⟩, ⟨nc, dc⟩⟩ := dateGroups_spec hg
  subst hcs
  refine ⟨⟨a, b, c, natDigits v.toNat⟩, ?_, ?_, ?_⟩
  · rw [intRepr_of_nonneg hv]
    have hrec := matchLineChars_record da na db nb dc nc
      (fun x hx => natDigits_all_digit x hx) (natDigits_ne_nil v.toNat)
    simpa [List.append_assoc, List.cons_append] using hrec
  · show a ++ '-' :: b ++ '-' :: c = a ++ '-' :: (b ++ '-' :: c)
    simp [List.append_assoc, List.cons_append]
  · exact digitsToNat_natDigits v.toNat

/-! ### Lemmas about the projection loop -/

theorem addDays_add (m n : Nat) (d : Date) : addDays m (addDays n d) = addDays (m + n) d :=
  (Function.iterate_add_apply nextDay m n d).symm

/-- The step count the spec promises for the projection from value `v`
with decrement `k`: the ceiling of `v / k`. -/
def ceilSteps (v k : Nat) : Nat := (v + k - 1) / k

/-- The projected series the spec promises, written from the spec's words
(`ceil(v/k)` points, the i-th appended point having value `max(0, v - i*k)`
and a date `7*i` days after the last historical date); to be compared with
the loop embedded from the source. -/
def expectedProj (d : Date) (v k : Nat) : List (Date × Int) :=
  (List.range (ceilSteps v k)).map
    (fun i => (addDays (7 * (i + 1)) d, max 0 ((v : Int) - ((i : Int) + 1) * (k : Int))))

theorem ceilSteps_pos {v k : Nat} (hv : 0 < v) (hk : 0 < k) : 0 < ceilSteps v k := by
  unfold ceilSteps
  exact (Nat.le_div_iff_mul_le hk).mpr (by omega)

theorem ceilSteps_eq_one {v k : Nat} (hv : 0 < v) (hvk : v ≤ k) : ceilSteps v k = 1 := by
  unfold ceilSteps
  have hk : 0 < k := by omega
  have h1 : v + k - 1 = (v - 1) + k := by omega
  rw [h1, Nat.add_div_right _ hk, Nat.div_eq_of_lt (by omega)]

theorem ceilSteps_succ {v k : Nat} (hk : 0 < k) (hvk : k < v) :
    ceilSteps v k = ceilSteps (v - k) k + 1 := by
  unfold ceilSteps
  have h1 : v + k - 1 = (v - k + k - 1) + k := by omega
  rw [h1, Nat.add_div_right _ hk]

theorem ceilSteps_mul_ge {v k : Nat} (hv : 0 < v) (hk : 0 < k) : v ≤ k * ceilSteps v k := by
  unfold ceilSteps
  have h1 := Nat.div_add_mod (v + k - 1) k
  have h2 := Nat.mod_lt (v + k - 1) hk
  omega

theorem projectLoop_of_nonpos (k : Int) (fuel : Nat) (d : Date) {v : Int} (hv : v ≤ 0) :
    projectLoop k fuel d v = some [] := by
  cases fuel <;> (rw [projectLoop, if_neg (by omega)])

theorem expectedProj_succ {v k : Nat} (d : Date) (hk : 0 < k) (hvk : k < v) :
    expectedProj d v k
      = (addDays 7 d, ((v - k : Nat) : Int)) :: expectedProj (addDays 7 d) (v - k) k := by
  unfold expectedProj
  rw [ceilSteps_succ hk hvk, List.range_succ_eq_map, List.map_cons, List.map_map]
  have htail : ∀ i ∈ List.range (ceilSteps (v - k) k),
      ((fun i => (addDays (7 * (i + 1)) d,
          max 0 ((v : Int) - ((i : Int) + 1) * (k : Int)))) ∘ Nat.succ) i
        = (fun i => (addDays (7 * (i + 1)) (addDays 7 d),
            max 0 (((v - k : Nat) : Int) - ((i : Int) + 1) * (k : Int)))) i := by
    intro i _
    simp only [Function.comp_apply]
    have hdate : addDays (7 * (Nat.succ i + 1)) d = addDays (7 * (i + 1)) (addDays 7 d) := by
      rw [addDays_add]
      have h7 : 7 * (i + 1) + 7 = 7 * (Nat.succ i + 1) := by omega
      rw [h7]
    have hval : max 0 ((v : Int) - ((Nat.succ i : Nat) + 1) * (k : Int))
        = max 0 (((v - k : Nat) : Int) - ((i : Int) + 1) * (k : Int)) := by
      have hinner : (v : Int) - ((Nat.succ i : Nat) + 1) * (k : Int)
          = ((v - k : Nat) : Int) - ((i : Int) + 1) * (k : Int) := by
        push_cast [Nat.cast_sub (le_of_lt hvk)]
        ring
      rw [hinner]
    rw [hdate, hval]
  rw [List.map_congr_left htail]
  have h7 : 7 * (0 + 1) = 7 := by norm_num
  have hval : max 0 ((v : Int) - (((0 : Nat) : Int) + 1) * (k : Int))
      = ((v - k : Nat) : Int) := by omega
  rw [h7, hval]

theorem projectLoop_spec {k : Nat} (hk : 0 < k) :
    ∀ (fuel : Nat) (v : Nat) (d : Date), 0 < v → ceilSteps v k ≤ fuel →
      projectLoop (k : Int) fuel d (v : Int) = some (expectedProj d v k) := by
  intro fuel
  induction fuel with
  | zero =>
    intro v d hv hf
    exact absurd hf (by have := ceilSteps_pos hv hk; omega)
  | succ f ih =>
    intro v d hv hf
    simp only [projectLoop, if_pos (show (0 : Int) < (v : Int) by exact_mod_cast hv)]
    by_cases hvk : v ≤ k
    · have hr : (if (v : Int) - (k : Int) < 0 then 0 else (v : Int) - (k : Int)) = 0 := by
        split <;> omega
      rw [hr, projectLoop_of_nonpos (k : Int) f (addDays 7 d) (le_refl 0)]
      unfold expectedProj
      rw [ceilSteps_eq_one hv hvk]
      show some [(addDays 7 d, 0)]
          = some [(addDays (7 * (0 + 1)) d, max 0 ((v : Int) - ((0 : Nat) + 1) * (k : Int)))]
      have hd : 7 * (0 + 1) = 7 := by norm_num
      rw [hd]
      have hval : max 0 ((v : Int) - ((0 : Nat) + 1) * (k : Int)) = 0 := by
        have : ((0 : Nat) : Int) = 0 := rfl
        rw [this]
        omega
      rw [hval]
    · have hlt : k < v := by omega
      have hr : (if (v : Int) - (k : Int) < 0 then 0 else (v : Int) - (k : Int))
          = ((v - k : Nat) : Int) := by
        split <;> omega
      rw [hr, ih (v - k) (addDays 7 d) (by omega)
        (by have := ceilSteps_succ hk hlt; omega)]
      rw [expectedProj_succ d hk hlt]

theorem projectLoop_values_nonneg (k : Int) :
    ∀ (fuel : Nat) (d : Date) (v : Int) (pts : List (Date × Int)),
      projectLoop k fuel d v = some pts → ∀ p ∈ pts, 0 ≤ p.2 := by
  intro fuel
  induction fuel with
  | zero =>
    intro d v pts h p hp
    rw [projectLoop] at h
    split at h
    · exact Option.noConfusion h
    · obtain rfl := (Option.some.inj h).symm
      exact absurd hp (List.not_mem_nil p)
  | succ f ih =>
    intro d v pts h p hp
    simp only [projectLoop] at h
    split at h
    · split at h
      · exact Option.noConfusion h
      · rename_i rest hrest
        obtain rfl := (Option.some.inj h).symm
        rcases List.mem_cons.mp hp with rfl | hp
        · show 0 ≤ (if (v - k) < 0 then 0 else v - k)
          split <;> omega
        · exact ih _ _ _ hrest p hp
    · obtain rfl := (Option.some.inj h).symm
      exact absurd hp (List.not_mem_nil p)

theorem projectLoop_none_of_nonpos {k : Int} (hk : k ≤ 0) :
    ∀ (fuel : Nat) (d : Date) (v : Int), 0 < v → projectLoop k fuel d v = none := by
  intro fuel
  induction fuel with
  | zero =>
    intro d v hv
    rw [projectLoop, if_pos hv]
  | succ f ih =>
    intro d v hv
    simp only [projectLoop, if_pos hv]
    have hr : 0 < (if v - k < 0 then 0 else v - k) := by split <;> omega
    rw [ih (addDays 7 d) _ hr]

theorem expectedProj_length (d : Date) (v k : Nat) :
    (expectedProj d v k).length = ceilSteps v k := by
  simp [expectedProj]

theorem expectedProj_get (d : Date) (v k i : Nat) (hi : i < (expectedProj d v k).length) :
    (expectedProj d v k).get ⟨i, hi⟩
      = (addDays (7 * (i + 1)) d, max 0 ((v : Int) - ((i : Int) + 1) * (k : Int))) := by
  simp [expectedProj]

theorem expectedProj_getLast (d : Date) {v k : Nat} (hv : 0 < v) (hk : 0 < k) :
    (expectedProj d v k).getLast? = some (addDays (7 * ceilSteps v k) d, 0) := by
  obtain ⟨M, hM⟩ : ∃ M, ceilSteps v k = M + 1 :=
    ⟨ceilSteps v k - 1, by have := ceilSteps_pos hv hk; omega⟩
  unfold expectedProj
  rw [hM, List.range_succ, List.map_append, List.map_cons, List.map_nil,
    List.getLast?_concat]
  have hge := ceilSteps_mul_ge hv hk
  rw [hM] at hge
  have h2 : (v : Int) ≤ ((M : Int) + 1) * (k : Int) := by
    rw [mul_comm]
    exact_mod_cast hge
  have hval : max 0 ((v : Int) - ((M : Int) + 1) * (k : Int)) = 0 :=
    max_eq_left (by linarith)
  rw [hval]

/-! ### Lemmas about status derivation -/

theorem pairStatuses_length (p : Nat) (vs : List Nat) :
    (pairStatuses p vs).length = vs.length := by
  induction vs generalizing p with
  | nil => rfl
  | cons v vs ih => simp [pairStatuses, ih]

theorem genStatuses_length (vals : List Nat) : (genStatuses vals).length = vals.length := by
  cases vals with
  | nil => rfl
  | cons v vs => simp [genStatuses, pairStatuses_length]

theorem pairStatuses_getD (vs : List Nat) : ∀ (p i : Nat), i < vs.length →
    (pairStatuses p vs).getD i "" =
      (if vs.getD i 0 < (p :: vs).getD i 0 then "better"
       else if (p :: vs).getD i 0 < vs.getD i 0 then "worse" else "same") := by
  induction vs with
  | nil => intro p i hi; simp at hi
  | cons v vs ih =>
    intro p i hi
    cases i with
    | zero => simp [pairStatuses]
    | succ i =>
      simp only [pairStatuses, List.getD_cons_succ]
      exact ih v i (by simpa using hi)

/-! ### Lemmas about the aggregation loop -/

theorem foldl_add_remaining (cards : List NCard) :
    ∀ a : Rat, cards.foldl (fun acc c => acc + getCardRemainingTime c) a
      = a + (cards.map getCardRemainingTime).sum := by
  induction cards with
  | nil => intro a; simp
  | cons c cs ih =>
    intro a
    simp only [List.foldl_cons, List.map_cons, List.sum_cons, ih]
    ring

/-! ### Well-formed date texts built by the pipeline -/

theorem dateGroups_mk {g1 g2 g3 : Str}
    (hd1 : ∀ c ∈ g1, Char.isDigit c = true) (hn1 : g1 ≠ [])
    (hd2 : ∀ c ∈ g2, Char.isDigit c = true) (hn2 : g2 ≠ [])
    (hd3 : ∀ c ∈ g3, Char.isDigit c = true) (hn3 : g3 ≠ []) :
    dateGroups (g1 ++ '-' :: (g2 ++ '-' :: g3)) = some (g1, g2, g3) := by
  obtain ⟨t1, e1⟩ := takeWhile_digit_block hd1 (show Char.isDigit '-' = false by decide)
    (g2 ++ '-' :: g3)
  obtain ⟨t2, e2⟩ := takeWhile_digit_block hd2 (show Char.isDigit '-' = false by decide) g3
  obtain ⟨t3, e3⟩ := takeWhile_all_block hd3
  simp only [dateGroups, t1, e1, t2, e2, t3, e3,
    List.isEmpty_eq_false.mpr hn1, List.isEmpty_eq_false.mpr hn2,
    List.isEmpty_eq_false.mpr hn3,
    List.isEmpty_nil, Bool.false_eq_true, if_false, if_true, ite_true, ite_false]

theorem dateShaped_dateStr {cs : Str} {pl : ParsedLine} (h : matchLineChars cs = some pl) :
    dateShaped pl.dateStr = true := by
  obtain ⟨⟨n1, d1⟩, ⟨n2, d2⟩, ⟨n3, d3⟩, _⟩ := matchLineChars_groups h
  have hg := dateGroups_mk d1 n1 d2 n2 d3 n3
  have hshape : pl.dateStr = pl.yearDigits ++ '-' :: (pl.monthDigits ++ '-' :: pl.dayDigits) := by
    show pl.yearDigits ++ '-' :: pl.monthDigits ++ '-' :: pl.dayDigits = _
    simp [List.append_assoc, List.cons_append]
  rw [dateShaped, hshape, hg]
  rfl

theorem dateShaped_fmtProjectedDate (d : Date) : dateShaped (fmtProjectedDate d) = true := by
  have hg := dateGroups_mk
    (fun c hc => natDigits_all_digit c hc) (natDigits_ne_nil d.year)
    (fun c hc => natDigits_all_digit c hc) (natDigits_ne_nil d.month)
    (fun c hc => natDigits_all_digit c hc) (natDigits_ne_nil d.day)
  have hshape : fmtProjectedDate d
      = natDigits d.year ++ '-' :: (natDigits d.month ++ '-' :: natDigits d.day) := by
    show natDigits d.year ++ '-' :: natDigits d.month ++ '-' :: natDigits d.day = _
    simp [List.append_assoc, List.cons_append]
  rw [dateShaped, hshape, hg]
  rfl

theorem parseLinesList_sourced : ∀ (ls : List Str), ∀ pl ∈ parseLinesList ls,
    ∃ cs, matchLineChars cs = some pl := by
  intro ls
  induction ls with
  | nil => intro pl hpl; exact absurd hpl (List.not_mem_nil pl)
  | cons l ls ih =>
    intro pl hpl
    rw [parseLinesList] at hpl
    revert hpl
    cases hm : matchLineChars l with
    | none => exact fun hpl => ih pl hpl
    | some q =>
      intro hpl
      rcases List.mem_cons.mp hpl with rfl | hpl
      · exact ⟨l, hm⟩
      · exact ih pl hpl

theorem matchLineChars_recordLine {date : Str} (hd : dateShaped date = true)
    {v : Int} (hv : 0 ≤ v) : (matchLineChars (recordLine date v)).isSome = true := by
  obtain ⟨pl, hm, _, _⟩ := matchLineChars_datapoint hd hv
  show (matchLineChars (date ++ ' ' :: '=' :: ' ' :: intRepr v)).isSome = true
  rw [hm]
  rfl

theorem recordLine_no_newline {date : Str} (hd : dateShaped date = true) (v : Int) :
    '\n' ∉ recordLine date v :=
  newline_not_mem_record (dateShaped_chars hd) v

theorem estFile_lines {content : Str} {k : Int} {fuel : Nat} {est : Str}
    (h : generateEstimatedTrendFile content k fuel = .ok est) :
    ∀ line ∈ splitLines est, line ≠ [] → (matchLineChars line).isSome = true := by
  simp only [generateEstimatedTrendFile] at h
  split at h
  · exact EstResult.noConfusion h
  rename_i lastPl hlast
  split at h
  · exact EstResult.noConfusion h
  rename_i lastDate hmk
  split at h
  · exact EstResult.noConfusion h
  rename_i proj hproj
  obtain rfl := EstResult.ok.inj h
  intro line hline hne
  have hrec : ∀ r ∈ (((parseContent content).map ParsedLine.dateStr
        ++ proj.map fun p => fmtProjectedDate p.1).zip
          ((parseContent content).map (fun p => (p.remaining : Int))
            ++ proj.map Prod.snd)).map (fun p => recordLine p.1 p.2),
      '\n' ∉ r ∧ (matchLineChars r).isSome = true := by
    intro r hr
    obtain ⟨⟨date, val⟩, hmem, rfl⟩ := List.mem_map.mp hr
    obtain ⟨hdate, hval⟩ := List.of_mem_zip hmem
    have hshaped : dateShaped date = true := by
      rcases List.mem_append.mp hdate with hd | hd
      · obtain ⟨pl, hpl, rfl⟩ := List.mem_map.mp hd
        obtain ⟨cs, hcs⟩ := parseLinesList_sourced _ pl hpl
        exact dateShaped_dateStr hcs
      · obtain ⟨p, _, rfl⟩ := List.mem_map.mp hd
        exact dateShaped_fmtProjectedDate p.1
    have hnn : 0 ≤ val := by
      rcases List.mem_append.mp hval with hv | hv
      · obtain ⟨pl, _, rfl⟩ := List.mem_map.mp hv
        exact Int.natCast_nonneg _
      · obtain ⟨p, hp, rfl⟩ := List.mem_map.mp hv
        exact projectLoop_values_nonneg k fuel lastDate _ proj hproj p hp
    exact ⟨recordLine_no_newline hshaped val, matchLineChars_recordLine hshaped hnn⟩
  have hsplit := splitLines_writeLines _ (fun r hr => (hrec r hr).1)
  rw [hsplit] at hline
  rcases List.mem_append.mp hline with hm | hm
  · exact (hrec line hm).2
  · rcases List.mem_singleton.mp hm with rfl
    exact absurd rfl hne

/-! ### Appending datapoints and reading them back -/

theorem parseContent_appendAll (pts : List (Str × Int)) :
    ∀ content : Str, (∀ p ∈ pts, dateShaped p.1 = true ∧ 0 ≤ p.2) →
      ∃ qs, parseContent (appendAll content pts) = parseContent content ++ qs
        ∧ qs.map (fun pl => (pl.dateStr, (pl.remaining : Int))) = pts := by
  induction pts with
  | nil => intro content _; exact ⟨[], by simp [appendAll], rfl⟩
  | cons p ps ih =>
    intro content hp
    obtain ⟨hshape, hnn⟩ := hp p (List.mem_cons_self p ps)
    obtain ⟨pl, hm, hds, hrem⟩ := matchLineChars_datapoint hshape hnn
    have hm2 : matchLineChars (addDatapointLine p.1 p.2) = some pl := hm
    have hstep : appendAll content (p :: ps)
        = appendAll (content ++ '\n' :: addDatapointLine p.1 p.2) ps := rfl
    have hnl : '\n' ∉ addDatapointLine p.1 p.2 :=
      newline_not_mem_record (dateShaped_chars hshape) p.2
    have hparse1 : parseContent (content ++ '\n' :: addDatapointLine p.1 p.2)
        = parseContent content ++ [pl] := by
      rw [parseContent_append_line _ _ hnl]
      simp [parseLinesList, hm2]
    obtain ⟨qs, hq1, hq2⟩ := ih (content ++ '\n' :: addDatapointLine p.1 p.2)
      (fun q hq => hp q (List.mem_cons_of_mem p hq))
    refine ⟨pl :: qs, ?_, ?_⟩
    · rw [hstep, hq1, hparse1, List.append_assoc, List.singleton_append]
    · simp only [List.map_cons, hq2, hds]
      have hcast : ((pl.remaining : Nat) : Int) = p.2 := by rw [hrem]; omega
      rw [hcast]

/-! ### Claim theorems -/

/-- C1: for every historical series whose last point is `(d, v)` with
`v > 0` and every weekly decrement `k > 0`, the projection loop in
`generate_estimated_trend` appends exactly `ceil(v/k)` additional points,
the i-th appended point having value `max(0, v - i*k)` and a date exactly
7 days after the previous point's date, and the final appended point
having value 0; if the last historical value is 0 (or below), no points
are appended.  (`fuel` only bounds how far the embedding unfolds the
source's unbounded loop; any bound of at least `ceil(v/k)` is enough.) -/
theorem c1_projection (d : Date) (v k : Nat) (hv : 0 < v) (hk : 0 < k)
    (fuel : Nat) (hf : (v + k - 1) / k ≤ fuel) :
    ∃ pts, projectLoop (k : Int) fuel d (v : Int) = some pts
      ∧ pts.length = (v + k - 1) / k
      ∧ (∀ i (hi : i < pts.length),
          pts.get ⟨i, hi⟩
            = (addDays (7 * (i + 1)) d, max 0 ((v : Int) - ((i : Int) + 1) * (k : Int))))
      ∧ (∀ i (hi : i + 1 < pts.length) (hi2 : i < pts.length),
          (pts.get ⟨i + 1, hi⟩).1 = addDays 7 (pts.get ⟨i, hi2⟩).1)
      ∧ pts.getLast? = some (addDays (7 * pts.length) d, 0)
      ∧ ∀ w : Int, w ≤ 0 → projectLoop (k : Int) fuel d w = some [] := by
  refine ⟨expectedProj d v k, projectLoop_spec hk fuel v d hv hf,
    expectedProj_length d v k, expectedProj_get d v k, ?_, ?_, ?_⟩
  · intro i hi hi2
    rw [expectedProj_get, expectedProj_get]
    show addDays (7 * (i + 1 + 1)) d = addDays 7 (addDays (7 * (i + 1)) d)
    rw [addDays_add, show 7 + 7 * (i + 1) = 7 * (i + 1 + 1) by ring]
  · rw [expectedProj_length]
    exact expectedProj_getLast d hv hk
  · intro w hw
    exact projectLoop_of_nonpos _ _ _ hw

/-- Witness for C1 at the spec's example: projecting from
`(2024-02-01, 9)` with decrement 4 takes exactly `ceil(9/4) = 3` steps. -/
theorem c1_projection_witness :
    ∃ pts, projectLoop ((4 : Nat) : Int) 3 ⟨2024, 2, 1⟩ ((9 : Nat) : Int) = some pts
      ∧ pts.length = (9 + 4 - 1) / 4
      ∧ (∀ i (hi : i < pts.length),
          pts.get ⟨i, hi⟩
            = (addDays (7 * (i + 1)) ⟨2024, 2, 1⟩,
               max 0 (((9 : Nat) : Int) - ((i : Int) + 1) * ((4 : Nat) : Int))))
      ∧ (∀ i (hi : i + 1 < pts.length) (hi2 : i < pts.length),
          (pts.get ⟨i + 1, hi⟩).1 = addDays 7 (pts.get ⟨i, hi2⟩).1)
      ∧ pts.getLast? = some (addDays (7 * pts.length) ⟨2024, 2, 1⟩, 0)
      ∧ ∀ w : Int, w ≤ 0 → projectLoop ((4 : Nat) : Int) 3 ⟨2024, 2, 1⟩ w = some [] :=
  c1_projection ⟨2024, 2, 1⟩ 9 4 (by decide) (by decide) 3 (by decide)

example : projectLoop ((4 : Nat) : Int) 3 ⟨2024, 2, 1⟩ ((9 : Nat) : Int)
    = some [(⟨2024, 2, 8⟩, 5), (⟨2024, 2, 15⟩, 1), (⟨2024, 2, 22⟩, 0)] := by decide

/-- C2 (code bug): the claim and the spec require a non-positive weekly
decrement to be rejected with an explicit configuration error, but the
source has no such guard: with `k ≤ 0` and a positive last value the
`while last_remaining > 0` loop never terminates.  Formally, no fuel
bound ever suffices — the embedded loop returns `none` (still running)
for every `fuel`. -/
theorem c2_nonpositive_decrement_loops (k : Int) (hk : k ≤ 0) (d : Date) (v : Int)
    (hv : 0 < v) (fuel : Nat) : projectLoop k fuel d v = none :=
  projectLoop_none_of_nonpos hk fuel d v hv

/-- Witness for C2: with decrement 0 and last value 9 the loop is still
running after 1000 iterations. -/
theorem c2_nonpositive_decrement_loops_witness :
    projectLoop 0 1000 ⟨2024, 2, 1⟩ 9 = none :=
  c2_nonpositive_decrement_loops 0 (by decide) ⟨2024, 2, 1⟩ 9 (by decide) 1000

/-- C3: `exclude(card)` is true iff the card carries the label id resolved
from the board's label mapping by case-insensitive name `"exclude"`, or
the card's containing list id equals the list id resolved by
case-insensitive name `"complete"`; otherwise false.  When no label or
list resolves (the `resolveIdByName` result is `none`), the corresponding
disjunct is unsatisfiable, so that check can never trigger. -/
theorem c3_exclude_iff (labels lists : List (String × String)) (card : TrelloCard) :
    calculateExclude labels lists card = true ↔
      ((∃ lid, resolveIdByName labels "exclude" = some lid ∧ ∃ cl ∈ card.labels, cl.id = lid)
       ∨ (∃ lid, resolveIdByName lists "complete" = some lid ∧ card.idList = lid)) := by
  have hstruct : calculateExclude labels lists card = true ↔
      (card.labels.any (fun l => some l.id = resolveIdByName labels "exclude") = true
       ∨ some card.idList = resolveIdByName lists "complete") := by
    simp only [calculateExclude]
    by_cases hA : card.labels.any (fun l => some l.id = resolveIdByName labels "exclude") = true
    · rw [if_pos hA]
      simp [hA]
    · rw [if_neg hA]
      by_cases hB : some card.idList = resolveIdByName lists "complete"
      · rw [if_pos hB]
        simp [hA, hB]
      · rw [if_neg hB]
        simp [hA, hB]
  rw [hstruct]
  constructor
  · intro h
    rcases h with hA | hB
    · left
      obtain ⟨cl, hcl, hid⟩ := List.any_eq_true.mp hA
      have hid2 : some cl.id = resolveIdByName labels "exclude" := of_decide_eq_true hid
      exact ⟨cl.id, hid2.symm, cl, hcl, rfl⟩
    · right
      cases hres2 : resolveIdByName lists "complete" with
      | none => rw [hres2] at hB; exact absurd hB (by simp)
      | some lid2 =>
        rw [hres2] at hB
        exact ⟨lid2, rfl, Option.some.inj hB⟩
  · intro h
    rcases h with ⟨lid, hres, cl, hcl, hid⟩ | ⟨lid, hres, hid⟩
    · left
      exact List.any_eq_true.mpr ⟨cl, hcl, decide_eq_true (by rw [hres, hid])⟩
    · right
      rw [hres, hid]

/-- C4: the per-card remaining time is 0 when the card is excluded, else
the numeric value of the `remaining` custom field when present, else
exactly 1; the run total is the sum of this value over all cards. -/
theorem c4_remaining (card : NCard) (cards : List NCard) :
    (card.exclude = true → getCardRemainingTime card = 0)
    ∧ (card.exclude = false → ∀ v, card.remaining = some v → getCardRemainingTime card = v)
    ∧ (card.exclude = false → card.remaining = none → getCardRemainingTime card = 1)
    ∧ totalRemaining cards = (cards.map getCardRemainingTime).sum := by
  refine ⟨?_, ?_, ?_, ?_⟩
  · intro h
    simp [getCardRemainingTime, h]
  · intro h v hv
    simp [getCardRemainingTime, h, hv]
  · intro h hv
    simp [getCardRemainingTime, h, hv]
  · unfold totalRemaining
    rw [foldl_add_remaining]
    ring

/-- Witness for C4: a non-excluded card without a `remaining` field
contributes exactly 1, an excluded card 0, a card with `remaining.number`
3.5 contributes 3.5, and the run total is the sum. -/
theorem c4_remaining_witness :
    getCardRemainingTime ⟨false, none⟩ = 1
    ∧ getCardRemainingTime ⟨true, some 5⟩ = 0
    ∧ getCardRemainingTime ⟨false, some (7 / 2 : Rat)⟩ = 7 / 2
    ∧ totalRemaining [⟨false, none⟩, ⟨true, some 5⟩]
        = (([⟨false, none⟩, ⟨true, some 5⟩] : List NCard).map getCardRemainingTime).sum :=
  ⟨(c4_remaining ⟨false, none⟩ []).2.2.1 rfl rfl,
   (c4_remaining ⟨true, some 5⟩ []).1 rfl,
   (c4_remaining ⟨false, some (7 / 2 : Rat)⟩ []).2.1 rfl (7 / 2 : Rat) rfl,
   (c4_remaining ⟨false, none⟩ [⟨false, none⟩, ⟨true, some 5⟩]).2.2.2⟩

/-- C5: appending N date/total points (well-formed `%Y-%m-%d` dates,
non-negative integer totals) to a trend store that holds no matching line
and then reading the store back parses exactly those N points, with the
same dates and values, in the same order. -/
theorem c5_roundtrip (content : Str) (pts : List (Str × Int))
    (hempty : parseContent content = [])
    (hwf : ∀ p ∈ pts, dateShaped p.1 = true ∧ 0 ≤ p.2) :
    (parseContent (appendAll content pts)).map
      (fun pl => (pl.dateStr, (pl.remaining : Int))) = pts := by
  obtain ⟨qs, h1, h2⟩ := parseContent_appendAll pts content hwf
  rw [h1, hempty, List.nil_append, h2]

/-- Witness for C5: two appends to an empty store read back as the same
two points. -/
theorem c5_roundtrip_witness :
    parseContent "".data = []
    ∧ (parseContent (appendAll "".data
        [("2024-01-01".data, 10), ("2024-01-08".data, 6)])).map
          (fun pl => (pl.dateStr, (pl.remaining : Int)))
        = [("2024-01-01".data, 10), ("2024-01-08".data, 6)] :=
  ⟨by decide, c5_roundtrip "".data [("2024-01-01".data, 10), ("2024-01-08".data, 6)]
    (by decide) (by decide)⟩

/-- C6: the derived status of the first parsed point is `start`, and the
status of every subsequent point is `better` when its value is strictly
below the immediately preceding value, `worse` when strictly above, and
`same` when equal — depending only on the immediately preceding point. -/
theorem c6_statuses (vals : List Nat) :
    (genStatuses vals).length = vals.length
    ∧ (vals ≠ [] → (genStatuses vals).getD 0 "" = "start")
    ∧ ∀ i, i + 1 < vals.length →
        (genStatuses vals).getD (i + 1) ""
          = (if vals.getD (i + 1) 0 < vals.getD i 0 then "better"
             else if vals.getD i 0 < vals.getD (i + 1) 0 then "worse" else "same") := by
  refine ⟨genStatuses_length vals, ?_, ?_⟩
  · intro h
    cases vals with
    | nil => exact absurd rfl h
    | cons v vs => rfl
  · intro i hi
    cases vals with
    | nil => simp at hi
    | cons v vs =>
      show (pairStatuses v vs).getD i "" = _
      rw [pairStatuses_getD vs v i (by simpa using hi)]
      simp [List.getD_cons_succ]

/-- Witness for C6 at the spec's example values `[10, 6, 6]`: the second
point's status evaluates through the comparison with the first. -/
theorem c6_statuses_witness :
    (genStatuses [10, 6, 6]).getD 1 ""
      = (if ([10, 6, 6] : List Nat).getD 1 0 < ([10, 6, 6] : List Nat).getD 0 0 then "better"
         else if ([10, 6, 6] : List Nat).getD 0 0 < ([10, 6, 6] : List Nat).getD 1 0 then "worse"
         else "same") :=
  (c6_statuses [10, 6, 6]).2.2 0 (by decide)

example : genStatuses [10, 6, 6] = ["start", "better", "same"] := by decide

/-- Content of the demo trend store used for C7 and C9. -/
def demoTrend : Str := "2024-02-01 = 9".data

/-- The estimate store `generate_estimated_trend` produces from
`demoTrend` with weekly decrement 4: note the projected dates are not
zero-padded. -/
def demoEstimate : Str :=
  "2024-02-01 = 9\n2024-2-8 = 5\n2024-2-15 = 1\n2024-2-22 = 0\n".data

/-- Whether a store line satisfies the claimed `YYYY-MM-DD = <int>`
format: if it matches the point pattern at all, its year group has four
digits and its month and day groups two digits each. -/
def linePadOk (line : Str) : Bool :=
  match matchLineChars line with
  | none => true
  | some pl =>
    pl.yearDigits.length = 4 && pl.monthDigits.length = 2 && pl.dayDigits.length = 2

/-- Counterexample to C7 as stated: projecting from `(2024-02-01, 9)`
with decrement 4 writes the line `2024-2-8 = 5`, whose month and day are
not two-digit zero-padded. -/
theorem c7_counterexample :
    generateEstimatedTrendFile demoTrend 4 10 = .ok demoEstimate
    ∧ "2024-2-8 = 5".data ∈ splitLines demoEstimate
    ∧ linePadOk "2024-2-8 = 5".data = false := by
  refine ⟨by decide, by decide, by decide⟩

/-- C7 (amended): every line `generate_estimated_trend` writes to the
Estimate Store matches the tolerant point pattern
`\d+-\d+-\d+ = \d+` and parses back — historical lines keep their
captured date text, while projected lines render year, month and day
without zero-padding (see `c7_counterexample`). -/
theorem c7_amended (content : Str) (k : Int) (fuel : Nat) (est : Str)
    (h : generateEstimatedTrendFile content k fuel = .ok est) :
    ∀ line ∈ splitLines est, line ≠ [] → (matchLineChars line).isSome = true :=
  estFile_lines h

/-- Witness for C7 (amended): the unpadded projected line of the demo
run still matches the point pattern. -/
theorem c7_amended_witness :
    (matchLineChars "2024-2-8 = 5".data).isSome = true :=
  c7_amended demoTrend 4 10 demoEstimate (by decide) "2024-2-8 = 5".data
    (by decide) (by decide)

/-- C8: reading a store parses each line against the point pattern and
silently skips every non-matching line — inserting a non-matching line
anywhere changes nothing, the parsed result is the parse of exactly the
matching lines, those matching lines form a subsequence of the file's
lines in file order, and reading is the total function
`filterMap` (no error is ever raised). -/
theorem c8_skip_nonmatching (content : Str) (ls xs ys : List Str) (bad : Str)
    (hbad : matchLineChars bad = none) :
    parseLinesList (xs ++ bad :: ys) = parseLinesList (xs ++ ys)
    ∧ parseLinesList (ls.filter (fun l => (matchLineChars l).isSome)) = parseLinesList ls
    ∧ List.Sublist (ls.filter (fun l => (matchLineChars l).isSome)) ls
    ∧ parseLinesList ls = ls.filterMap matchLineChars
    ∧ parseContent content = parseLinesList (splitLines content) := by
  refine ⟨?_, parseLinesList_filter_matching ls, List.filter_sublist ls,
    parseLinesList_eq_filterMap ls, rfl⟩
  rw [parseLinesList_append, parseLinesList_append, parseLinesList, hbad]

/-- Witness for C8: inserting a comment line between two data lines does
not change the parse. -/
theorem c8_skip_nonmatching_witness :
    parseLinesList (["2024-01-01 = 10".data] ++ "# comment".data :: ["2024-01-08 = 6".data])
      = parseLinesList (["2024-01-01 = 10".data] ++ ["2024-01-08 = 6".data]) :=
  (c8_skip_nonmatching [] [] ["2024-01-01 = 10".data] ["2024-01-08 = 6".data]
    "# comment".data (by decide)).1

/-- C9: `add_datapoint` only appends to the trend store (the prior
content stays as a prefix), and neither `generate_trend` (which reads
only) nor `generate_estimated_trend` (which rewrites only the separate
estimate store) changes the trend store. -/
theorem c9_frame (s : Stores) (today : Str) (totalRem : Rat) (k : Int) (fuel : Nat) :
    (∃ suffix, (addDatapointRun s today totalRem).trendData = s.trendData ++ suffix)
    ∧ (generateTrendRun s).1 = s
    ∧ (∀ s2, generateEstimatedTrendRun s k fuel = some s2 → s2.trendData = s.trendData) := by
  refine ⟨⟨'\n' :: addDatapointLine today (pyTrunc totalRem), rfl⟩, rfl, ?_⟩
  intro s2 h
  unfold generateEstimatedTrendRun at h
  split at h
  · rw [← Option.some.inj h]
  all_goals exact Option.noConfusion h

/-- Witness for C9: a successful estimate run on the demo store leaves
the trend store unchanged. -/
theorem c9_frame_witness :
    generateEstimatedTrendRun ⟨demoTrend, []⟩ 4 10 = some ⟨demoTrend, demoEstimate⟩
    ∧ (⟨demoTrend, demoEstimate⟩ : Stores).trendData = (⟨demoTrend, []⟩ : Stores).trendData :=
  ⟨by decide,
   (c9_frame ⟨demoTrend, []⟩ [] 0 4 10).2.2 ⟨demoTrend, demoEstimate⟩ (by decide)⟩

/-- C10: when the trend store is empty or no line matches the point
pattern, `generate_estimated_trend` dies with the out-of-range indexing
error of `current_dates[-1]` instead of producing an estimate store; a
non-empty parseable history is an unstated precondition. -/
theorem c10_empty_history (content : Str) (k : Int) (fuel : Nat)
    (h : parseContent content = []) :
    generateEstimatedTrendFile content k fuel = .indexError := by
  unfold generateEstimatedTrendFile
  rw [h]
  rfl

/-- Witness for C10: the empty store parses to nothing and the run fails
with the indexing error. -/
theorem c10_empty_history_witness :
    parseContent "".data = []
    ∧ generateEstimatedTrendFile "".data 4 10 = .indexError :=
  ⟨by decide, c10_empty_history "".data 4 10 (by decide)⟩
